import Mathlib

/-!
Verification of the set-associative cache simulator in `src/cache_sim.cpp`
(class `CacheSim`).  The C++ state is embedded shallowly: the four per-line
vectors (`tags`, `dirty`, `valid`, `priority`) become total functions from the
global slot index, machine integers become `Nat`/`Int` (all counters and
priorities in the program are non-negative and far below any overflow bound),
and the `double` report values are modeled as exact rationals, with Lean's
total division (`x / 0 = 0`) standing in for the IEEE division the program
performs unconditionally.
-/

/-- Counts one bits of a natural number, the embedding of `std::__popcount`
used by the constructor (line 43 and 49).  Structural fuel recursion; fuel `n`
suffices because the argument at least halves each step. -/
def popcountAux : Nat → Nat → Nat
  | 0, _ => 0
  | fuel + 1, n => if n = 0 then 0 else n % 2 + popcountAux fuel (n / 2)

/-- Popcount with enough fuel. -/
def popcount (n : Nat) : Nat := popcountAux n n

/-- The simulator state: configuration fields, derived decoding fields, and
the four per-line vectors of `CacheSim` (lines 83-98), the vectors as total
functions on the slot index. -/
structure CacheSim where
  block_size : Nat
  associativity : Nat
  capacity : Nat
  miss_penalty : Nat
  dirty_wb_penalty : Nat
  set_offset : Nat
  tag_offset : Nat
  set_mask : Nat
  tags : Nat → Nat
  dirty : Nat → Bool
  valid : Nat → Bool
  priority : Nat → Nat

/-- The constructor (lines 17-54).  No validation whatsoever is performed; the
derived fields are computed with popcount, and the vectors are value
initialized (all zero / false) by `resize`.  The file-stream argument is I/O
glue and not modeled. -/
def mkCacheSim (bs a c mp wbp : Nat) : CacheSim :=
  { block_size := bs
    associativity := a
    capacity := c
    miss_penalty := mp
    dirty_wb_penalty := wbp
    set_offset := popcount (bs - 1)
    set_mask := c / (bs * a) - 1
    tag_offset := popcount (bs - 1) + popcount (c / (bs * a) - 1)
    tags := fun _ => 0
    dirty := fun _ => false
    valid := fun _ => false
    priority := fun _ => 0 }

/-- Extracts the set number (lines 239-242): shift out the offset bits and
mask with `set_mask`. -/
def CacheSim.get_set (c : CacheSim) (address : Nat) : Nat :=
  (address >>> c.set_offset) &&& c.set_mask

/-- Extracts the tag (lines 245-247): shift out offset and set bits. -/
def CacheSim.get_tag (c : CacheSim) (address : Nat) : Nat :=
  address >>> c.tag_offset

/-- The lookup loop of `probe` (lines 173-197) over the set's span starting
at `base`: lane `i` with `n` lanes remaining, carrying `invalid_index` (the
C++ `-1` sentinel becomes `none`).  An invalid lane is recorded and skipped;
a valid lane with matching tag stops the loop (the first component of the
result is the hit index).  The dirty-flag write on a hit happens in `probe`
below, which is equivalent because the loop breaks immediately after it. -/
def scanLoop (tagv base : Nat) (vld : Nat → Bool) (tgs : Nat → Nat) :
    Nat → Nat → Option Nat → Option Nat × Option Nat
  | _, 0, inv => (none, inv)
  | i, n + 1, inv =>
    if vld (base + i) = false then scanLoop tagv base vld tgs (i + 1) n (some i)
    else if tgs (base + i) = tagv then (some i, inv)
    else scanLoop tagv base vld tgs (i + 1) n inv

/-- The `std::ranges` max-element search over the set's priorities
(lines 209-210): start with the first lane as the current best and replace it
only on a strictly greater value, so ties keep the first occurrence. -/
def maxLoop (base : Nat) (pr : Nat → Nat) : Nat → Nat → Nat → Nat
  | best, _, 0 => best
  | best, i, n + 1 =>
    maxLoop base pr (if pr (base + i) > pr (base + best) then i else best) (i + 1) n

/-- Index of the first maximal priority in the set (lines 209-210). -/
def maxElemIdx (a base : Nat) (pr : Nat → Nat) : Nat :=
  maxLoop base pr 0 1 (a - 1)

/-- One element of the in-place `std::transform` of lines 223-230: lane `i` is
overwritten with the lambda's result, which compares against the live value
`local_priority[index]` (so the threshold itself may already have been
incremented by an earlier step of the same pass). -/
def prioStep (a base idx : Nat) (pr : Nat → Nat) (i : Nat) : Nat → Nat :=
  fun j =>
    if j = base + i then
      (if pr (base + i) ≤ pr (base + idx) ∧ pr (base + i) < a then pr (base + i) + 1
       else pr (base + i))
    else pr j

/-- The in-place `std::transform` of lines 223-230, applied element by element
in storage order, exactly as the sequential implementation executes it. -/
def prioLoop (a base idx : Nat) : Nat → Nat → (Nat → Nat) → (Nat → Nat)
  | _, 0, pr => pr
  | i, n + 1, pr => prioLoop a base idx (i + 1) n (prioStep a base idx pr i)

/-- The whole priority update (lines 218-232): the transform over all
`associativity` lanes, then the touched lane is set to `0`. -/
def prioFinal (a base idx : Nat) (pr : Nat → Nat) : Nat → Nat :=
  fun j => if j = base + idx then 0 else prioLoop a base idx 0 a pr j

/-- Result of the lookup loop for this probe (hit index, last invalid index). -/
def CacheSim.scanRes (c : CacheSim) (address : Nat) : Option Nat × Option Nat :=
  scanLoop (c.get_tag address) (c.get_set address * c.associativity)
    c.valid c.tags 0 c.associativity none

/-- The C++ variable `index` as it stands after lines 173-216: the hit index,
else the invalid index, else the evicted max-priority index. -/
def CacheSim.touchedIdx (c : CacheSim) (address : Nat) : Nat :=
  match c.scanRes address with
  | (some i, _) => i
  | (none, some i) => i
  | (none, none) =>
    maxElemIdx c.associativity (c.get_set address * c.associativity) c.priority

/-- The returned `hit` flag (line 189 / 173). -/
def CacheSim.probeHit (c : CacheSim) (address : Nat) : Bool :=
  (c.scanRes address).1.isSome

/-- The returned `dirty_wb` flag (lines 200-211): set only on the eviction
path, from the evicted line's dirty bit before it is overwritten. -/
def CacheSim.probeWb (c : CacheSim) (address : Nat) : Bool :=
  match c.scanRes address with
  | (some _, _) => false
  | (none, some _) => false
  | (none, none) =>
    c.dirty (c.get_set address * c.associativity + c.touchedIdx address)

/-- The probe operation (lines 160-235), returning the updated state together
with `(hit, dirty_wb)`.  On a hit only the dirty bit of the hit lane is OR-ed
with the access type (line 193); on a miss the chosen lane gets the new tag
and `dirty = type` (lines 214-215), and on the invalid-lane path it is also
marked valid (line 205); the priority update runs in every case. -/
def CacheSim.probe (c : CacheSim) (type : Bool) (address : Nat) :
    CacheSim × Bool × Bool :=
  ({ c with
      tags := fun j =>
        match (c.scanRes address).1 with
        | some _ => c.tags j
        | none =>
          if j = c.get_set address * c.associativity + c.touchedIdx address then
            c.get_tag address
          else c.tags j
      dirty := fun j =>
        match (c.scanRes address).1 with
        | some _ =>
          if j = c.get_set address * c.associativity + c.touchedIdx address then
            c.dirty j || type
          else c.dirty j
        | none =>
          if j = c.get_set address * c.associativity + c.touchedIdx address then
            type
          else c.dirty j
      valid := fun j =>
        match c.scanRes address with
        | (none, some _) =>
          if j = c.get_set address * c.associativity + c.touchedIdx address then
            true
          else c.valid j
        | _ => c.valid j
      priority :=
        prioFinal c.associativity (c.get_set address * c.associativity)
          (c.touchedIdx address) c.priority },
    c.probeHit address, c.probeWb address)

/-- The running statistics counters (lines 101-105); the `int64_t` counters
are modeled as `Nat` (they are only ever incremented by non-negative
amounts), and `dirty_wb_` holds the 0/1 value assigned from a `bool`. -/
structure Stats where
  writes_ : Nat
  mem_accesses_ : Nat
  misses_ : Nat
  dirty_wb_ : Nat
  instructions_ : Nat

/-- All counters start at zero (in-class initializers, lines 101-105). -/
def Stats.init : Stats :=
  { writes_ := 0, mem_accesses_ := 0, misses_ := 0, dirty_wb_ := 0
    instructions_ := 0 }

/-- The statistics update (lines 250-256).  Note the last line of the C++
function: `dirty_wb_ = dirty_wb;` is an assignment, not an accumulation. -/
def update_stats (s : Stats) (instructions : Nat) (type hit dirty_wb : Bool) :
    Stats :=
  { writes_ := s.writes_ + (if type then 1 else 0)
    mem_accesses_ := s.mem_accesses_ + 1
    misses_ := s.misses_ + (if hit then 0 else 1)
    dirty_wb_ := if dirty_wb then 1 else 0
    instructions_ := s.instructions_ + instructions }

/-- The simulation loop `run` (lines 57-70) on an already parsed trace: each
record is `(type, address, instructions)`; the probe result feeds
`update_stats`. -/
def runTrace : CacheSim → Stats → List (Bool × Nat × Nat) → CacheSim × Stats
  | c, s, [] => (c, s)
  | c, s, (type, address, instructions) :: rest =>
    runTrace (c.probe type address).1
      (update_stats s instructions type (c.probe type address).2.1
        (c.probe type address).2.2) rest

/-- The quantities printed by `dump_stats` (lines 126-143); the two `double`
divisions are modeled as exact rational division (total, `x / 0 = 0`). -/
structure Report where
  miss_rate : Rat
  hits : Int
  cycles : Nat
  ipc : Rat

/-- The cycle count of lines 136-138. -/
def cyclesOf (c : CacheSim) (s : Stats) : Nat :=
  c.miss_penalty * s.misses_ + c.dirty_wb_penalty * s.dirty_wb_ + s.instructions_

/-- The report computation of `dump_stats` (lines 126-143); the printing
itself is I/O glue.  Both divisions are performed unconditionally, exactly as
in the source. -/
def dump_stats (c : CacheSim) (s : Stats) : Report :=
  { miss_rate := (s.misses_ : Rat) / (s.mem_accesses_ : Rat) * 100
    hits := (s.mem_accesses_ : Int) - (s.misses_ : Int)
    cycles := cyclesOf c s
    ipc := (s.instructions_ : Rat) / (cyclesOf c s : Rat) }

/-- Probes the addresses `ad 0, ad 1, ..., ad (n-1)` in order with the given
access kinds, threading the cache state (the statistics are irrelevant here). -/
def probeSeq (c : CacheSim) (kind : Nat → Bool) (ad : Nat → Nat) : Nat → CacheSim
  | 0 => c
  | n + 1 => ((probeSeq c kind ad n).probe (kind n) (ad n)).1

/-- Power-of-two test used only to state the spec's validity condition. -/
def isPowTwo (n : Nat) : Bool := n ≠ 0 && (n &&& (n - 1)) == 0

/-- The spec's configuration error. -/
inductive ConfigError where
  | notPowerOfTwo
deriving DecidableEq

/-- Modelled from the spec: the constructor the spec demands, which rejects a
configuration with non-power-of-two `block_size_bytes` or derived set count
with a `ConfigurationError` and otherwise builds the simulator.  The actual
C++ constructor performs no such check; this definition exists only to state
claim C8 against the code. -/
def mk_checked (bs a c mp wbp : Nat) : Except ConfigError CacheSim :=
  if isPowTwo bs && isPowTwo (c / (bs * a)) then
    Except.ok (mkCacheSim bs a c mp wbp)
  else
    Except.error ConfigError.notPowerOfTwo

/-- Modelled from the spec: the guarded report the spec demands, signalling an
explicit no-data condition (here `none`) instead of dividing when
`total_accesses` or the cycle count is zero.  The actual C++ `dump_stats`
divides unconditionally; this definition exists only to state claim C9
against the code. -/
def dump_stats_checked (c : CacheSim) (s : Stats) : Option Report :=
  if s.mem_accesses_ = 0 ∨ cyclesOf c s = 0 then none
  else some (dump_stats c s)

/-- The priority-update rule exactly as claim C1 states it: with `p0` the
touched line's priority before the update, every other line of the set is
incremented precisely when its prior priority `p` satisfies `p ≤ p0` and
`p < associativity`, and the touched line ends at priority `0`. -/
@[reducible] def claimC1 (c : CacheSim) (type : Bool) (address : Nat) : Prop :=
  (∀ i, i < c.associativity → i ≠ c.touchedIdx address →
    (c.probe type address).1.priority (c.get_set address * c.associativity + i) =
      (if c.priority (c.get_set address * c.associativity + i) ≤
            c.priority (c.get_set address * c.associativity + c.touchedIdx address) ∧
          c.priority (c.get_set address * c.associativity + i) < c.associativity
       then c.priority (c.get_set address * c.associativity + i) + 1
       else c.priority (c.get_set address * c.associativity + i))) ∧
  (c.probe type address).1.priority
    (c.get_set address * c.associativity + c.touchedIdx address) = 0

/-- The hard-coded configuration of `main` (lines 266-270): 16-byte blocks,
direct mapped, 16 KiB, penalties 30 and 2. -/
def mainSim : CacheSim := mkCacheSim 16 1 16384 30 2

/-- State after the first access of the concrete scenario (read `0x0`). -/
def mainSim1 : CacheSim := (mainSim.probe false 0x0).1

/-- State after the second access (read `0x1`). -/
def mainSim2 : CacheSim := (mainSim1.probe false 0x1).1

/-- State after the third access (read `0x4000`). -/
def mainSim3 : CacheSim := (mainSim2.probe false 0x4000).1

/-- The concrete trace of the scenario: reads of `0x0, 0x1, 0x4000, 0x0`,
one instruction each. -/
def mainTrace : List (Bool × Nat × Nat) :=
  [(false, 0x0, 1), (false, 0x1, 1), (false, 0x4000, 1), (false, 0x0, 1)]

/-- A two-way configuration (16-byte blocks, associativity 2, 16 KiB): used
to exhibit the behavior of the in-place priority transform. -/
def twoWaySim : CacheSim := mkCacheSim 16 2 16384 30 2

/-- Two-way state after a read of `0x0` (installed in lane 1 of set 0). -/
def twoWaySim1 : CacheSim := (twoWaySim.probe false 0x0).1

/-- Two-way state after a further read of `0x2000` (tag 1, same set,
installed in lane 0): set 0 now has priorities `[0, 1]`. -/
def twoWaySim2 : CacheSim := (twoWaySim1.probe false 0x2000).1

/-- Address sequence with three pairwise distinct tags all mapping to set 0
of the two-way configuration. -/
def threeAddrs : Nat → Nat :=
  fun i => if i = 0 then 0x0 else if i = 1 then 0x2000 else 0x4000

/-- All-reads access-kind sequence. -/
def allReads : Nat → Bool := fun _ => false

/-- The statistics after the concrete scenario (3 misses, 4 accesses,
4 instructions, last access clean). -/
def mainStats : Stats :=
  { writes_ := 0, mem_accesses_ := 4, misses_ := 3, dirty_wb_ := 0
    instructions_ := 4 }

/-! Characterizations of the lookup loop. -/

/-- A hit index returned by the loop lies in the scanned range and points at a
valid line with the probed tag. -/
theorem scanLoop_hit (tagv base : Nat) (vld : Nat → Bool) (tgs : Nat → Nat) :
    ∀ n i inv h inv2, scanLoop tagv base vld tgs i n inv = (some h, inv2) →
      i ≤ h ∧ h < i + n ∧ vld (base + h) = true ∧ tgs (base + h) = tagv := by
  intro n
  induction n with
  | zero => intro i inv h inv2 he; simp [scanLoop] at he
  | succ n ih =>
    intro i inv h inv2 he
    rw [scanLoop] at he
    split at he
    · obtain ⟨h1, h2, h3, h4⟩ := ih _ _ _ _ he
      exact ⟨by omega, by omega, h3, h4⟩
    · next hv =>
      split at he
      · next ht =>
        injection he with he1 he2
        injection he1 with he1
        subst he1
        exact ⟨Nat.le_refl _, by omega, by simpa using hv, ht⟩
      · obtain ⟨h1, h2, h3, h4⟩ := ih _ _ _ _ he
        exact ⟨by omega, by omega, h3, h4⟩

/-- An invalid index returned by the loop is either the one carried in, or was
recorded from an invalid line inside the scanned range. -/
theorem scanLoop_inv (tagv base : Nat) (vld : Nat → Bool) (tgs : Nat → Nat) :
    ∀ n i inv h2 m, scanLoop tagv base vld tgs i n inv = (h2, some m) →
      inv = some m ∨ (i ≤ m ∧ m < i + n ∧ vld (base + m) = false) := by
  intro n
  induction n with
  | zero =>
    intro i inv h2 m he
    rw [scanLoop] at he
    injection he with he1 he2
    exact Or.inl he2
  | succ n ih =>
    intro i inv h2 m he
    rw [scanLoop] at he
    split at he
    · next hv =>
      rcases ih _ _ _ _ he with h | h
      · injection h with h
        subst h
        exact Or.inr ⟨Nat.le_refl _, by omega, hv⟩
      · exact Or.inr ⟨by omega, by omega, h.2.2⟩
    · split at he
      · injection he with he1 he2
        exact Or.inl he2
      · rcases ih _ _ _ _ he with h | h
        · exact Or.inl h
        · exact Or.inr ⟨by omega, by omega, h.2.2⟩

/-- If the loop reports a miss with no invalid index, then no invalid index
was carried in and every scanned line is valid. -/
theorem scanLoop_none_none (tagv base : Nat) (vld : Nat → Bool) (tgs : Nat → Nat) :
    ∀ n i inv, scanLoop tagv base vld tgs i n inv = (none, none) →
      inv = none ∧ ∀ k, i ≤ k → k < i + n → vld (base + k) = true := by
  intro n
  induction n with
  | zero =>
    intro i inv he
    rw [scanLoop] at he
    injection he with he1 he2
    exact ⟨he2, fun k hk1 hk2 => by omega⟩
  | succ n ih =>
    intro i inv he
    rw [scanLoop] at he
    split at he
    · obtain ⟨h1, h2⟩ := ih _ _ he
      exact absurd h1 (by simp)
    · next hv =>
      split at he
      · exact absurd he (by simp)
      · obtain ⟨h1, h2⟩ := ih _ _ he
        refine ⟨h1, fun k hk1 hk2 => ?_⟩
        rcases Nat.eq_or_lt_of_le hk1 with h | h
        · subst h; simpa using hv
        · exact h2 k h (by omega)

/-- Scanning a range of valid lines none of which carries the probed tag
reports a miss and leaves the invalid index unchanged. -/
theorem scanLoop_all_valid (tagv base : Nat) (vld : Nat → Bool) (tgs : Nat → Nat) :
    ∀ n i inv, (∀ k, i ≤ k → k < i + n → vld (base + k) = true ∧ tgs (base + k) ≠ tagv) →
      scanLoop tagv base vld tgs i n inv = (none, inv) := by
  intro n
  induction n with
  | zero => intro i inv _; rw [scanLoop]
  | succ n ih =>
    intro i inv hall
    rw [scanLoop]
    have hi := hall i (Nat.le_refl _) (by omega)
    rw [if_neg (by simp [hi.1]), if_neg hi.2]
    exact ih (i + 1) inv (fun k hk1 hk2 => hall k (by omega) (by omega))

/-- Scanning a block of invalid lines followed by valid, non-matching lines
reports a miss with the last invalid index. -/
theorem scanLoop_prefix_invalid (tagv base : Nat) (vld : Nat → Bool) (tgs : Nat → Nat) :
    ∀ n i inv m, i < m → m ≤ i + n →
      (∀ k, i ≤ k → k < m → vld (base + k) = false) →
      (∀ k, m ≤ k → k < i + n → vld (base + k) = true ∧ tgs (base + k) ≠ tagv) →
      scanLoop tagv base vld tgs i n inv = (none, some (m - 1)) := by
  intro n
  induction n with
  | zero => intro i inv m h1 h2 _ _; omega
  | succ n ih =>
    intro i inv m h1 h2 hinv hval
    rw [scanLoop]
    rw [if_pos (hinv i (Nat.le_refl _) h1)]
    rcases Nat.eq_or_lt_of_le (Nat.succ_le_of_lt h1) with h | h
    · have : scanLoop tagv base vld tgs (i + 1) n (some i) = (none, some i) :=
        scanLoop_all_valid tagv base vld tgs n (i + 1) (some i)
          (fun k hk1 hk2 => hval k (by omega) (by omega))
      rw [this]
      have : m - 1 = i := by omega
      rw [this]
    · exact ih (i + 1) (some i) m h (by omega)
        (fun k hk1 hk2 => hinv k (by omega) (by omega))
        (fun k hk1 hk2 => hval k (by omega) (by omega))

/-! Characterization of the max-element search. -/

/-- Invariant-carrying characterization of `maxLoop`: starting from a best
index below the scan position whose priority dominates (strictly, before it)
everything already seen, the result is the first index of the overall maximal
priority over the extended range. -/
theorem maxLoop_spec (base : Nat) (pr : Nat → Nat) :
    ∀ n best i, best < i →
      (∀ k, k < i → pr (base + k) ≤ pr (base + best)) →
      (∀ k, k < best → pr (base + k) < pr (base + best)) →
      (maxLoop base pr best i n = best ∨
        (i ≤ maxLoop base pr best i n ∧ maxLoop base pr best i n < i + n)) ∧
      (∀ k, k < i + n → pr (base + k) ≤ pr (base + maxLoop base pr best i n)) ∧
      (∀ k, k < maxLoop base pr best i n →
        pr (base + k) < pr (base + maxLoop base pr best i n)) := by
  intro n
  induction n with
  | zero =>
    intro best i h1 h2 h3
    rw [maxLoop]
    exact ⟨Or.inl rfl, fun k hk => h2 k (by omega), h3⟩
  | succ n ih =>
    intro best i h1 h2 h3
    rw [maxLoop]
    split
    · next hgt =>
      have h2' : ∀ k, k < i + 1 → pr (base + k) ≤ pr (base + i) := by
        intro k hk
        rcases Nat.lt_or_ge k i with h | h
        · exact Nat.le_trans (h2 k h) (Nat.le_of_lt hgt)
        · have : k = i := by omega
          subst this; exact Nat.le_refl _
      have h3' : ∀ k, k < i → pr (base + k) < pr (base + i) := by
        intro k hk
        exact Nat.lt_of_le_of_lt (h2 k hk) hgt
      obtain ⟨r1, r2, r3⟩ := ih i (i + 1) (by omega) h2' h3'
      exact ⟨by omega, fun k hk => r2 k (by omega), r3⟩
    · next hgt =>
      have h2' : ∀ k, k < i + 1 → pr (base + k) ≤ pr (base + best) := by
        intro k hk
        rcases Nat.lt_or_ge k i with h | h
        · exact h2 k h
        · have : k = i := by omega
          subst this; omega
      obtain ⟨r1, r2, r3⟩ := ih best (i + 1) (by omega) h2' h3
      exact ⟨by omega, fun k hk => r2 k (by omega), r3⟩

/-- The max-element index is the first index of the largest priority in the
set (ties keep the first occurrence in storage order). -/
theorem maxElemIdx_spec (a base : Nat) (pr : Nat → Nat) (ha : 0 < a) :
    maxElemIdx a base pr < a ∧
    (∀ k, k < a → pr (base + k) ≤ pr (base + maxElemIdx a base pr)) ∧
    (∀ k, k < maxElemIdx a base pr →
      pr (base + k) < pr (base + maxElemIdx a base pr)) := by
  obtain ⟨r1, r2, r3⟩ := maxLoop_spec base pr (a - 1) 0 1 (by omega)
    (fun k hk => by rw [show k = 0 by omega])
    (fun k hk => by omega)
  rw [maxElemIdx]
  exact ⟨by omega, fun k hk => r2 k (by omega), r3⟩

/-! Characterizations of the priority transform. -/

/-- Lanes outside the processed window are untouched by the transform. -/
theorem prioLoop_frame (a base idx : Nat) :
    ∀ n i pr j, j < base + i ∨ base + i + n ≤ j →
      prioLoop a base idx i n pr j = pr j := by
  intro n
  induction n with
  | zero => intro i pr j _; rw [prioLoop]
  | succ n ih =>
    intro i pr j hj
    rw [prioLoop]
    rw [ih (i + 1) _ j (by omega)]
    unfold prioStep
    rw [if_neg (by omega)]

/-- The transform splits at any intermediate lane. -/
theorem prioLoop_split (a base idx : Nat) :
    ∀ n m i pr, prioLoop a base idx i (n + m) pr =
      prioLoop a base idx (i + n) m (prioLoop a base idx i n pr) := by
  intro n
  induction n with
  | zero => intro m i pr; rw [Nat.zero_add, Nat.add_zero, prioLoop]
  | succ n ih =>
    intro m i pr
    have h : n + 1 + m = (n + m) + 1 := by omega
    rw [h, prioLoop, prioLoop, ih]
    have h2 : i + 1 + n = i + (n + 1) := by omega
    rw [h2]

/-- When the touched lane lies outside the processed window, the transform
acts lane-wise with the fixed threshold read at the touched lane. -/
theorem prioLoop_fixed (a base idx : Nat) :
    ∀ n i pr, (idx < i ∨ i + n ≤ idx) → ∀ j,
      prioLoop a base idx i n pr j =
        if base + i ≤ j ∧ j < base + i + n then
          (if pr j ≤ pr (base + idx) ∧ pr j < a then pr j + 1 else pr j)
        else pr j := by
  intro n
  induction n with
  | zero =>
    intro i pr _ j
    rw [prioLoop, if_neg (by omega)]
  | succ n ih =>
    intro i pr hidx j
    rw [prioLoop]
    rw [ih (i + 1) _ (by omega) j]
    have hth : prioStep a base idx pr i (base + idx) = pr (base + idx) := by
      unfold prioStep
      rw [if_neg (by omega)]
    by_cases hj : j = base + i
    · subst hj
      rw [if_neg (show ¬(base + (i + 1) ≤ base + i ∧ base + i < base + (i + 1) + n) by omega),
        if_pos (show base + i ≤ base + i ∧ base + i < base + i + (n + 1) by omega)]
      unfold prioStep
      rw [if_pos rfl]
    · have hstep : prioStep a base idx pr i j = pr j := by
        unfold prioStep
        rw [if_neg hj]
      rw [hth, hstep]
      by_cases hw : base + (i + 1) ≤ j ∧ j < base + (i + 1) + n
      · rw [if_pos hw, if_pos (show base + i ≤ j ∧ j < base + i + (n + 1) by omega)]
      · rw [if_neg hw, if_neg (show ¬(base + i ≤ j ∧ j < base + i + (n + 1)) by omega)]

/-- Exact effect of the whole priority update (lines 218-232) on every lane:
the touched lane ends at `0`; a lane before the touched index is incremented
precisely when its old priority is at most `p0` (the touched lane's old
priority) and below `associativity`; a lane after the touched index is
compared against the already updated threshold, i.e. `p0 + 1` whenever
`p0 < associativity`; lanes outside the set are untouched. -/
theorem prioFinal_spec (a base idx : Nat) (pr : Nat → Nat) (hidx : idx < a) :
    prioFinal a base idx pr (base + idx) = 0 ∧
    (∀ i, i < idx →
      prioFinal a base idx pr (base + i) =
        (if pr (base + i) ≤ pr (base + idx) ∧ pr (base + i) < a
         then pr (base + i) + 1 else pr (base + i))) ∧
    (∀ i, idx < i → i < a →
      prioFinal a base idx pr (base + i) =
        (if pr (base + i) ≤ (if pr (base + idx) < a then pr (base + idx) + 1
              else pr (base + idx)) ∧ pr (base + i) < a
         then pr (base + i) + 1 else pr (base + i))) ∧
    (∀ j, j < base ∨ base + a ≤ j → prioFinal a base idx pr j = pr j) := by
  have h1 := prioLoop_split a base idx idx (1 + (a - idx - 1)) 0 pr
  have h2 : idx + (1 + (a - idx - 1)) = a := by omega
  rw [h2, Nat.zero_add] at h1
  have h3 := prioLoop_split a base idx 1 (a - idx - 1) idx
    (prioLoop a base idx 0 idx pr)
  have hsplit : prioLoop a base idx 0 a pr =
      prioLoop a base idx (idx + 1) (a - idx - 1)
        (prioLoop a base idx idx 1 (prioLoop a base idx 0 idx pr)) := by
    rw [h1, h3]
  have hP0 : ∀ j, prioLoop a base idx 0 idx pr j =
      if base + 0 ≤ j ∧ j < base + 0 + idx then
        (if pr j ≤ pr (base + idx) ∧ pr j < a then pr j + 1 else pr j)
      else pr j :=
    prioLoop_fixed a base idx idx 0 pr (Or.inr (by omega))
  have hP0idx : prioLoop a base idx 0 idx pr (base + idx) = pr (base + idx) := by
    rw [hP0 (base + idx), if_neg (by omega)]
  have hP1def : prioLoop a base idx idx 1 (prioLoop a base idx 0 idx pr) =
      prioStep a base idx (prioLoop a base idx 0 idx pr) idx := by
    rw [prioLoop, prioLoop]
  have hP1idx : prioLoop a base idx idx 1 (prioLoop a base idx 0 idx pr) (base + idx) =
      (if pr (base + idx) < a then pr (base + idx) + 1 else pr (base + idx)) := by
    rw [hP1def]
    unfold prioStep
    rw [if_pos rfl, hP0idx]
    by_cases h : pr (base + idx) < a
    · rw [if_pos ⟨Nat.le_refl _, h⟩, if_pos h]
    · rw [if_neg (fun hc => h hc.2), if_neg h]
  have hP1j : ∀ j, j ≠ base + idx →
      prioLoop a base idx idx 1 (prioLoop a base idx 0 idx pr) j =
      prioLoop a base idx 0 idx pr j := by
    intro j hj
    rw [hP1def]
    unfold prioStep
    rw [if_neg hj]
  refine ⟨?_, ?_, ?_, ?_⟩
  · simp [prioFinal]
  · intro i hi
    simp only [prioFinal]
    rw [if_neg (show ¬(base + i = base + idx) by omega), hsplit]
    rw [prioLoop_frame a base idx (a - idx - 1) (idx + 1) _ (base + i) (Or.inl (by omega))]
    rw [hP1j (base + i) (by omega), hP0 (base + i),
      if_pos (show base + 0 ≤ base + i ∧ base + i < base + 0 + idx by omega)]
  · intro i hi1 hi2
    simp only [prioFinal]
    rw [if_neg (show ¬(base + i = base + idx) by omega), hsplit]
    rw [prioLoop_fixed a base idx (a - idx - 1) (idx + 1) _ (Or.inl (by omega)) (base + i)]
    rw [if_pos (show base + (idx + 1) ≤ base + i ∧
        base + i < base + (idx + 1) + (a - idx - 1) by omega)]
    rw [hP1idx, hP1j (base + i) (by omega), hP0 (base + i),
      if_neg (show ¬(base + 0 ≤ base + i ∧ base + i < base + 0 + idx) by omega)]
  · intro j hj
    simp only [prioFinal]
    rw [if_neg (show ¬(j = base + idx) by omega), hsplit]
    rw [prioLoop_frame a base idx (a - idx - 1) (idx + 1) _ j (by omega)]
    rw [hP1j j (by omega), hP0 j,
      if_neg (show ¬(base + 0 ≤ j ∧ j < base + 0 + idx) by omega)]

/-! Projections and bounds for `probe`. -/

/-- The probe's priority component is the transform applied at the touched
index. -/
theorem probe_priority (c : CacheSim) (type : Bool) (address : Nat) :
    (c.probe type address).1.priority =
      prioFinal c.associativity (c.get_set address * c.associativity)
        (c.touchedIdx address) c.priority := rfl

/-- The touched index is inside the set. -/
theorem touchedIdx_lt (c : CacheSim) (address : Nat) (ha : 0 < c.associativity) :
    c.touchedIdx address < c.associativity := by
  unfold CacheSim.touchedIdx
  rcases hsr : c.scanRes address with ⟨hq, inv⟩
  have hsr2 : scanLoop (c.get_tag address) (c.get_set address * c.associativity)
      c.valid c.tags 0 c.associativity none = (hq, inv) := hsr
  cases hq with
  | some k =>
    show k < c.associativity
    have h := scanLoop_hit _ _ _ _ c.associativity 0 none k inv hsr2
    omega
  | none =>
    cases inv with
    | some m =>
      show m < c.associativity
      rcases scanLoop_inv _ _ _ _ c.associativity 0 none none m hsr2 with h | h
      · exact absurd h (by simp)
      · omega
    | none =>
      show maxElemIdx c.associativity (c.get_set address * c.associativity)
        c.priority < c.associativity
      exact (maxElemIdx_spec _ _ _ ha).1

/-- Slots other than the touched one keep their tag. -/
theorem probe_tags_frame (c : CacheSim) (type : Bool) (address : Nat) (j : Nat)
    (hj : j ≠ c.get_set address * c.associativity + c.touchedIdx address) :
    (c.probe type address).1.tags j = c.tags j := by
  show (match (c.scanRes address).1 with
    | some _ => c.tags j
    | none =>
      if j = c.get_set address * c.associativity + c.touchedIdx address then
        c.get_tag address
      else c.tags j) = c.tags j
  cases (c.scanRes address).1 with
  | some k => rfl
  | none => exact if_neg hj

/-- Slots other than the touched one keep their dirty bit. -/
theorem probe_dirty_frame (c : CacheSim) (type : Bool) (address : Nat) (j : Nat)
    (hj : j ≠ c.get_set address * c.associativity + c.touchedIdx address) :
    (c.probe type address).1.dirty j = c.dirty j := by
  show (match (c.scanRes address).1 with
    | some _ =>
      if j = c.get_set address * c.associativity + c.touchedIdx address then
        c.dirty j || type
      else c.dirty j
    | none =>
      if j = c.get_set address * c.associativity + c.touchedIdx address then
        type
      else c.dirty j) = c.dirty j
  cases (c.scanRes address).1 with
  | some k => exact if_neg hj
  | none => exact if_neg hj

/-- Slots other than the touched one keep their valid bit. -/
theorem probe_valid_frame (c : CacheSim) (type : Bool) (address : Nat) (j : Nat)
    (hj : j ≠ c.get_set address * c.associativity + c.touchedIdx address) :
    (c.probe type address).1.valid j = c.valid j := by
  show (match c.scanRes address with
    | (none, some _) =>
      if j = c.get_set address * c.associativity + c.touchedIdx address then
        true
      else c.valid j
    | _ => c.valid j) = c.valid j
  rcases hsr : c.scanRes address with ⟨_ | k, _ | m⟩
  · rfl
  · exact if_neg hj
  · rfl
  · rfl

/-- The touched index on the invalid-install path. -/
theorem touchedIdx_invalid (c : CacheSim) (address m : Nat)
    (h : c.scanRes address = (none, some m)) : c.touchedIdx address = m := by
  unfold CacheSim.touchedIdx
  rw [h]

/-- The touched index on the eviction path. -/
theorem touchedIdx_eviction (c : CacheSim) (address : Nat)
    (h : c.scanRes address = (none, none)) :
    c.touchedIdx address =
      maxElemIdx c.associativity (c.get_set address * c.associativity) c.priority := by
  unfold CacheSim.touchedIdx
  rw [h]

/-- The write-back flag on the invalid-install path. -/
theorem probeWb_invalid (c : CacheSim) (address m : Nat)
    (h : c.scanRes address = (none, some m)) : c.probeWb address = false := by
  unfold CacheSim.probeWb
  rw [h]

/-- The write-back flag on the eviction path is the evicted line's dirty bit. -/
theorem probeWb_eviction (c : CacheSim) (address : Nat)
    (h : c.scanRes address = (none, none)) :
    c.probeWb address =
      c.dirty (c.get_set address * c.associativity + c.touchedIdx address) := by
  unfold CacheSim.probeWb
  rw [h]

/-- On a miss the touched slot receives the probed tag. -/
theorem probe_tags_touched (c : CacheSim) (type : Bool) (address : Nat)
    (hm : (c.scanRes address).1 = none) :
    (c.probe type address).1.tags
      (c.get_set address * c.associativity + c.touchedIdx address) =
      c.get_tag address := by
  show (match (c.scanRes address).1 with
    | some _ => c.tags (c.get_set address * c.associativity + c.touchedIdx address)
    | none =>
      if c.get_set address * c.associativity + c.touchedIdx address =
          c.get_set address * c.associativity + c.touchedIdx address then
        c.get_tag address
      else c.tags (c.get_set address * c.associativity + c.touchedIdx address)) =
    c.get_tag address
  rw [hm]
  exact if_pos rfl

/-- On a miss the touched slot's dirty bit becomes the access type. -/
theorem probe_dirty_touched_miss (c : CacheSim) (type : Bool) (address : Nat)
    (hm : (c.scanRes address).1 = none) :
    (c.probe type address).1.dirty
      (c.get_set address * c.associativity + c.touchedIdx address) = type := by
  show (match (c.scanRes address).1 with
    | some _ =>
      if c.get_set address * c.associativity + c.touchedIdx address =
          c.get_set address * c.associativity + c.touchedIdx address then
        c.dirty (c.get_set address * c.associativity + c.touchedIdx address) || type
      else c.dirty (c.get_set address * c.associativity + c.touchedIdx address)
    | none =>
      if c.get_set address * c.associativity + c.touchedIdx address =
          c.get_set address * c.associativity + c.touchedIdx address then
        type
      else c.dirty (c.get_set address * c.associativity + c.touchedIdx address)) =
    type
  rw [hm]
  exact if_pos rfl

/-- On the invalid-install path the touched slot is marked valid. -/
theorem probe_valid_touched (c : CacheSim) (type : Bool) (address m : Nat)
    (h : c.scanRes address = (none, some m)) :
    (c.probe type address).1.valid
      (c.get_set address * c.associativity + c.touchedIdx address) = true := by
  show (match c.scanRes address with
    | (none, some _) =>
      if c.get_set address * c.associativity + c.touchedIdx address =
          c.get_set address * c.associativity + c.touchedIdx address then
        true
      else c.valid (c.get_set address * c.associativity + c.touchedIdx address)
    | _ => c.valid (c.get_set address * c.associativity + c.touchedIdx address)) =
    true
  rw [h]
  exact if_pos rfl

/-- C1, counterexample: the claimed snapshot rule for the priority update is
false on the code.  On the two-way state with set-0 priorities `[0, 1]`
(reached from a fresh cache by two reads), a hit on lane 0 (priority
`p0 = 0`) must, by the claim, leave lane 1 (prior priority `1 > p0`)
unchanged; the in-place transform instead increments it to `2`, because by
the time lane 1 is processed the threshold `local_priority[index]` has
already been incremented to `1`. -/
theorem c1_counterexample : ¬ claimC1 twoWaySim2 false 0x2000 := by decide

/-- C1 (amended): for every probe with a nonempty set, with `idx` the touched
index and `p0` the touched line's priority before the update, the touched
line's priority becomes `0`; a line before `idx` is incremented exactly when
its prior priority `p` satisfies `p ≤ p0` and `p < associativity`; a line
after `idx` is instead compared against the already updated threshold
`p0 + 1` (when `p0 < associativity`, else still `p0`), because the
`std::transform` of lines 223-230 runs in place and reads
`local_priority[index]` live. -/
theorem c1_amended_priority_update (c : CacheSim) (type : Bool) (address : Nat)
    (ha : 0 < c.associativity) :
    (c.probe type address).1.priority
      (c.get_set address * c.associativity + c.touchedIdx address) = 0 ∧
    (∀ i, i < c.touchedIdx address →
      (c.probe type address).1.priority (c.get_set address * c.associativity + i) =
        (if c.priority (c.get_set address * c.associativity + i) ≤
              c.priority (c.get_set address * c.associativity +
                c.touchedIdx address) ∧
            c.priority (c.get_set address * c.associativity + i) < c.associativity
         then c.priority (c.get_set address * c.associativity + i) + 1
         else c.priority (c.get_set address * c.associativity + i))) ∧
    (∀ i, c.touchedIdx address < i → i < c.associativity →
      (c.probe type address).1.priority (c.get_set address * c.associativity + i) =
        (if c.priority (c.get_set address * c.associativity + i) ≤
              (if c.priority (c.get_set address * c.associativity +
                    c.touchedIdx address) < c.associativity
               then c.priority (c.get_set address * c.associativity +
                 c.touchedIdx address) + 1
               else c.priority (c.get_set address * c.associativity +
                 c.touchedIdx address)) ∧
            c.priority (c.get_set address * c.associativity + i) < c.associativity
         then c.priority (c.get_set address * c.associativity + i) + 1
         else c.priority (c.get_set address * c.associativity + i))) := by
  have h := prioFinal_spec c.associativity (c.get_set address * c.associativity)
    (c.touchedIdx address) c.priority (touchedIdx_lt c address ha)
  rw [probe_priority]
  exact ⟨h.1, h.2.1, h.2.2.1⟩

/-- C1, witness: on the two-way state with priorities `[0, 1]`, the probe
that hits lane 0 sets its priority to `0` and drives lane 1 to `2`. -/
theorem c1_amended_priority_update_witness :
    0 < twoWaySim2.associativity ∧
    (twoWaySim2.probe false 0x2000).1.priority 0 = 0 ∧
    (twoWaySim2.probe false 0x2000).1.priority 1 = 2 :=
  ⟨by decide,
    (c1_amended_priority_update twoWaySim2 false 0x2000 (by decide)).1,
    Eq.trans
      ((c1_amended_priority_update twoWaySim2 false 0x2000 (by decide)).2.2 1
        (by decide) (by decide))
      (by decide)⟩

/-- C2: on the hard-coded configuration (block 16, direct mapped, 16 KiB,
penalties 30/2), the reads `0x0, 0x1, 0x4000, 0x0` from a fresh cache give
miss, hit, miss, miss, and the final statistics count 3 misses in 4
accesses. -/
theorem c2_concrete_scenario :
    (mainSim.probe false 0x0).2.1 = false ∧
    (mainSim1.probe false 0x1).2.1 = true ∧
    (mainSim2.probe false 0x4000).2.1 = false ∧
    (mainSim3.probe false 0x0).2.1 = false ∧
    (runTrace mainSim Stats.init mainTrace).2.misses_ = 3 ∧
    (runTrace mainSim Stats.init mainTrace).2.mem_accesses_ = 4 := by decide

/-- C3: on every miss in a nonempty set, if the set holds an invalid line the
new tag is installed in an invalid slot, which becomes valid, with no
write-back; otherwise the victim is the first index of the numerically
largest priority and the write-back flag equals the victim's old dirty bit;
in both cases the chosen slot receives the probed tag and dirty = (kind ==
write). -/
theorem c3_miss_replacement (c : CacheSim) (type : Bool) (address : Nat)
    (ha : 0 < c.associativity)
    (hmiss : (c.probe type address).2.1 = false) :
    ((∃ i, i < c.associativity ∧
        c.valid (c.get_set address * c.associativity + i) = false) →
      c.valid (c.get_set address * c.associativity + c.touchedIdx address) = false ∧
      (c.probe type address).1.valid
        (c.get_set address * c.associativity + c.touchedIdx address) = true ∧
      (c.probe type address).2.2 = false) ∧
    ((∀ i, i < c.associativity →
        c.valid (c.get_set address * c.associativity + i) = true) →
      (∀ i, i < c.associativity →
        c.priority (c.get_set address * c.associativity + i) ≤
          c.priority (c.get_set address * c.associativity + c.touchedIdx address)) ∧
      (∀ i, i < c.touchedIdx address →
        c.priority (c.get_set address * c.associativity + i) <
          c.priority (c.get_set address * c.associativity + c.touchedIdx address)) ∧
      (c.probe type address).2.2 =
        c.dirty (c.get_set address * c.associativity + c.touchedIdx address)) ∧
    (c.probe type address).1.tags
      (c.get_set address * c.associativity + c.touchedIdx address) =
      c.get_tag address ∧
    (c.probe type address).1.dirty
      (c.get_set address * c.associativity + c.touchedIdx address) = type := by
  have hnone : (c.scanRes address).1 = none := by
    cases h : (c.scanRes address).1 with
    | none => rfl
    | some k =>
      have hh : (c.probe type address).2.1 = true := by
        show (c.scanRes address).1.isSome = true
        rw [h]
        rfl
      rw [hh] at hmiss
      exact Bool.noConfusion hmiss
  refine ⟨?_, ?_, probe_tags_touched c type address hnone,
    probe_dirty_touched_miss c type address hnone⟩
  · intro ⟨i, hi, hinv⟩
    cases h2 : (c.scanRes address).2 with
    | none =>
      exfalso
      have hsr : c.scanRes address = (none, none) := Prod.ext hnone h2
      have hall := scanLoop_none_none (c.get_tag address)
        (c.get_set address * c.associativity) c.valid c.tags
        c.associativity 0 none hsr
      rw [hall.2 i (by omega) (by omega)] at hinv
      exact Bool.noConfusion hinv
    | some m =>
      have hsr : c.scanRes address = (none, some m) := Prod.ext hnone h2
      have htouch := touchedIdx_invalid c address m hsr
      refine ⟨?_, probe_valid_touched c type address m hsr, ?_⟩
      · rcases scanLoop_inv (c.get_tag address)
          (c.get_set address * c.associativity) c.valid c.tags
          c.associativity 0 none none m hsr with h | h
        · exact absurd h (by simp)
        · rw [htouch]
          exact h.2.2
      · show c.probeWb address = false
        exact probeWb_invalid c address m hsr
  · intro hall
    cases h2 : (c.scanRes address).2 with
    | some m =>
      exfalso
      rcases scanLoop_inv (c.get_tag address)
        (c.get_set address * c.associativity) c.valid c.tags
        c.associativity 0 none none m (Prod.ext hnone h2) with h | h
      · exact absurd h (by simp)
      · have := hall m (by omega)
        rw [this] at h
        exact Bool.noConfusion h.2.2
    | none =>
      have hsr : c.scanRes address = (none, none) := Prod.ext hnone h2
      have htouch := touchedIdx_eviction c address hsr
      obtain ⟨m1, m2, m3⟩ := maxElemIdx_spec c.associativity
        (c.get_set address * c.associativity) c.priority ha
      rw [htouch]
      refine ⟨m2, m3, ?_⟩
      show c.probeWb address = _
      rw [probeWb_eviction c address hsr, htouch]

/-- C3, witness: on a fresh direct-mapped cache a read of `0x0` misses, the
set's only line is invalid, gets installed (valid, tag 0, clean) with no
write-back. -/
theorem c3_miss_replacement_witness :
    0 < mainSim.associativity ∧ (mainSim.probe false 0x0).2.1 = false ∧
    ((∃ i, i < mainSim.associativity ∧
        mainSim.valid (mainSim.get_set 0x0 * mainSim.associativity + i) = false) →
      mainSim.valid (mainSim.get_set 0x0 * mainSim.associativity +
        mainSim.touchedIdx 0x0) = false ∧
      (mainSim.probe false 0x0).1.valid
        (mainSim.get_set 0x0 * mainSim.associativity +
          mainSim.touchedIdx 0x0) = true ∧
      (mainSim.probe false 0x0).2.2 = false) :=
  ⟨by decide, by decide,
    (c3_miss_replacement mainSim false 0x0 (by decide) (by decide)).1⟩

/-- C10: a probe changes at most the four line entries of the addressed set,
i.e. only slots in `[set * associativity, set * associativity +
associativity)`; every other slot and every configuration field is
unchanged. -/
theorem c10_probe_frame (c : CacheSim) (type : Bool) (address : Nat)
    (ha : 0 < c.associativity) :
    (∀ j, j < c.get_set address * c.associativity ∨
        c.get_set address * c.associativity + c.associativity ≤ j →
      (c.probe type address).1.tags j = c.tags j ∧
      (c.probe type address).1.valid j = c.valid j ∧
      (c.probe type address).1.dirty j = c.dirty j ∧
      (c.probe type address).1.priority j = c.priority j) ∧
    (c.probe type address).1.block_size = c.block_size ∧
    (c.probe type address).1.associativity = c.associativity ∧
    (c.probe type address).1.capacity = c.capacity ∧
    (c.probe type address).1.miss_penalty = c.miss_penalty ∧
    (c.probe type address).1.dirty_wb_penalty = c.dirty_wb_penalty ∧
    (c.probe type address).1.set_offset = c.set_offset ∧
    (c.probe type address).1.tag_offset = c.tag_offset ∧
    (c.probe type address).1.set_mask = c.set_mask := by
  have hidx := touchedIdx_lt c address ha
  refine ⟨fun j hj => ⟨?_, ?_, ?_, ?_⟩, rfl, rfl, rfl, rfl, rfl, rfl, rfl, rfl⟩
  · exact probe_tags_frame c type address j (by omega)
  · exact probe_valid_frame c type address j (by omega)
  · exact probe_dirty_frame c type address j (by omega)
  · rw [probe_priority]
    exact (prioFinal_spec c.associativity (c.get_set address * c.associativity)
      (c.touchedIdx address) c.priority hidx).2.2.2 j (by omega)

/-- C10, witness: probing address 0 of the direct-mapped configuration leaves
slot 5 (a different set) and the capacity field untouched. -/
theorem c10_probe_frame_witness :
    0 < mainSim.associativity ∧
    (mainSim.probe false 0x0).1.tags 5 = mainSim.tags 5 ∧
    (mainSim.probe false 0x0).1.capacity = mainSim.capacity :=
  ⟨by decide,
    ((c10_probe_frame mainSim false 0x0 (by decide)).1 5 (by decide)).1,
    (c10_probe_frame mainSim false 0x0 (by decide)).2.2.2.1⟩

/-- Running a concatenated trace threads the state through the first part. -/
theorem runTrace_append (tr1 : List (Bool × Nat × Nat)) :
    ∀ c s tr2, runTrace c s (tr1 ++ tr2) =
      runTrace (runTrace c s tr1).1 (runTrace c s tr1).2 tr2 := by
  induction tr1 with
  | nil => intro c s tr2; rfl
  | cons x tr ih =>
    intro c s tr2
    rcases x with ⟨t, a2, n⟩
    rw [List.cons_append, runTrace, runTrace, ih]

/-- C6: every processed access adds one to `mem_accesses_`, adds the write
and miss indicators and the instruction count, and overwrites (rather than
accumulates) the dirty-write-back field, so after any run ending in a given
access that field holds only the final access's flag. -/
theorem c6_stats_update :
    (∀ s instructions type hit dirty_wb,
      update_stats s instructions type hit dirty_wb =
        { writes_ := s.writes_ + (if type then 1 else 0)
          mem_accesses_ := s.mem_accesses_ + 1
          misses_ := s.misses_ + (if hit then 0 else 1)
          dirty_wb_ := if dirty_wb then 1 else 0
          instructions_ := s.instructions_ + instructions }) ∧
    (∀ c s tr type address instructions,
      (runTrace c s (tr ++ [(type, address, instructions)])).2.dirty_wb_ =
        (if ((runTrace c s tr).1.probe type address).2.2 then 1 else 0)) := by
  refine ⟨fun s instructions type hit dirty_wb => rfl,
    fun c s tr type address instructions => ?_⟩
  rw [runTrace_append]
  rfl

/-- C7: the report computes `cycles = miss_penalty * misses +
dirty_wb_penalty * dirty_wb + instructions`, `hits = accesses - misses` and
`ipc = instructions / cycles`; on the scenario statistics (3 misses, last
flag clear, 4 instructions, penalty 30) this gives 94 cycles and
`ipc = 4/94`. -/
theorem c7_report_arithmetic :
    (∀ c s, (dump_stats c s).cycles =
      c.miss_penalty * s.misses_ + c.dirty_wb_penalty * s.dirty_wb_ +
        s.instructions_) ∧
    (∀ c s, (dump_stats c s).hits =
      (s.mem_accesses_ : Int) - (s.misses_ : Int)) ∧
    (∀ c s, (dump_stats c s).ipc =
      (s.instructions_ : Rat) / ((dump_stats c s).cycles : Rat)) ∧
    (dump_stats mainSim mainStats).cycles = 94 ∧
    (dump_stats mainSim mainStats).ipc = 4 / 94 := by
  refine ⟨fun c s => rfl, fun c s => rfl, fun c s => rfl, by decide, ?_⟩
  have h : cyclesOf mainSim mainStats = 94 := by decide
  show ((mainStats.instructions_ : Nat) : Rat) /
    ((cyclesOf mainSim mainStats : Nat) : Rat) = 4 / 94
  rw [h]
  norm_num [mainStats]

/-- Fuel irrelevance for the popcount helper. -/
theorem popcountAux_fuel :
    ∀ fuel fuel2 n, n ≤ fuel → n ≤ fuel2 →
      popcountAux fuel n = popcountAux fuel2 n := by
  intro fuel
  induction fuel with
  | zero =>
    intro fuel2 n h1 h2
    have h0 : n = 0 := by omega
    subst h0
    cases fuel2 with
    | zero => rfl
    | succ f2 => rfl
  | succ f ih =>
    intro fuel2 n h1 h2
    by_cases hn : n = 0
    · subst hn
      cases fuel2 with
      | zero => rfl
      | succ f2 => rfl
    · cases fuel2 with
      | zero => omega
      | succ f2 =>
        rw [popcountAux, popcountAux, if_neg hn, if_neg hn]
        rw [ih f2 (n / 2) (by omega) (by omega)]

/-- The natural recurrence of popcount. -/
theorem popcount_rec (n : Nat) (h : n ≠ 0) :
    popcount n = n % 2 + popcount (n / 2) := by
  cases hn : n with
  | zero => exact absurd hn h
  | succ m =>
    simp only [popcount]
    rw [popcountAux, if_neg (by omega)]
    rw [popcountAux_fuel m ((m + 1) / 2) ((m + 1) / 2) (by omega) (by omega)]

/-- Popcount of an all-ones mask is the number of mask bits, exactly what the
constructor relies on for power-of-two geometry. -/
theorem popcount_two_pow_sub_one : ∀ k, popcount (2 ^ k - 1) = k := by
  intro k
  induction k with
  | zero => rfl
  | succ k ih =>
    have hp : 0 < 2 ^ k := Nat.two_pow_pos k
    have h2 : 2 ^ (k + 1) = 2 ^ k * 2 := pow_succ 2 k
    rw [popcount_rec (2 ^ (k + 1) - 1) (by omega)]
    have hmod : (2 ^ (k + 1) - 1) % 2 = 1 := by omega
    have hdiv : (2 ^ (k + 1) - 1) / 2 = 2 ^ k - 1 := by omega
    rw [hmod, hdiv, ih]
    exact Nat.add_comm 1 k

/-- C8, counterexample: the claim demands that construction fail with a
configuration error on a non-power-of-two block size, but the C++ constructor
performs no check at all; with `block_size = 3` it succeeds, disagreeing with
the spec-modelled checked constructor. -/
theorem c8_counterexample :
    Except.ok (mkCacheSim 3 1 12 30 2) ≠ mk_checked 3 1 12 30 2 := by
  rw [mk_checked,
    if_neg (show ¬((isPowTwo 3 && isPowTwo (12 / (3 * 1))) = true) by decide)]
  exact fun h => Except.noConfusion h

/-- C8 (amended): construction never fails and performs no validation; for
every configuration the constructor simply computes the derived fields with
popcount, and on a power-of-two geometry (`block_size = 2 ^ b`, derived set
count `2 ^ s`) those fields are the log2-based values: offset `b`, mask
`2 ^ s - 1`, tag offset `b + s`, with all lines initially invalid. -/
theorem c8_amended_no_validation (bs a cap mp wbp b s : Nat)
    (hbs : bs = 2 ^ b) (hsets : cap / (bs * a) = 2 ^ s) :
    (mkCacheSim bs a cap mp wbp).set_offset = b ∧
    (mkCacheSim bs a cap mp wbp).set_mask = 2 ^ s - 1 ∧
    (mkCacheSim bs a cap mp wbp).tag_offset = b + s ∧
    (∀ j, (mkCacheSim bs a cap mp wbp).valid j = false) := by
  refine ⟨?_, ?_, ?_, fun j => rfl⟩
  · show popcount (bs - 1) = b
    rw [hbs, popcount_two_pow_sub_one]
  · show cap / (bs * a) - 1 = 2 ^ s - 1
    rw [hsets]
  · show popcount (bs - 1) + popcount (cap / (bs * a) - 1) = b + s
    rw [hsets, hbs, popcount_two_pow_sub_one, popcount_two_pow_sub_one]

/-- C8, witness: the hard-coded geometry (16-byte blocks, 1024 sets) yields
offset 4, mask 1023, tag offset 14. -/
theorem c8_amended_no_validation_witness :
    16 = 2 ^ 4 ∧ 16384 / (16 * 1) = 2 ^ 10 ∧
    ((mkCacheSim 16 1 16384 30 2).set_offset = 4 ∧
      (mkCacheSim 16 1 16384 30 2).set_mask = 2 ^ 10 - 1 ∧
      (mkCacheSim 16 1 16384 30 2).tag_offset = 4 + 10) :=
  ⟨by decide, by decide,
    (c8_amended_no_validation 16 1 16384 30 2 4 10 (by decide) (by decide)).1,
    (c8_amended_no_validation 16 1 16384 30 2 4 10 (by decide) (by decide)).2.1,
    (c8_amended_no_validation 16 1 16384 30 2 4 10 (by decide) (by decide)).2.2.1⟩

/-- C9, counterexample: with zero accesses the claim demands an explicit
no-data signal instead of the divisions; the C++ report function
unconditionally divides and produces a report, disagreeing with the
spec-modelled guarded report. -/
theorem c9_counterexample :
    some (dump_stats mainSim Stats.init) ≠ dump_stats_checked mainSim Stats.init := by
  rw [dump_stats_checked,
    if_pos (show Stats.init.mem_accesses_ = 0 ∨ cyclesOf mainSim Stats.init = 0
      from Or.inl rfl)]
  exact fun h => Option.noConfusion h

/-- C9 (amended): with `total_accesses = 0` the report is still produced and
the miss-rate division is performed with a zero denominator (IEEE NaN at
runtime; the junk value `0` in the rational model), while the spec's guarded
report would signal no data. -/
theorem c9_amended_report_total (c : CacheSim) (s : Stats)
    (h : s.mem_accesses_ = 0) :
    (dump_stats c s).miss_rate = (s.misses_ : Rat) / 0 * 100 ∧
    (dump_stats c s).miss_rate = 0 ∧
    dump_stats_checked c s = none := by
  refine ⟨?_, ?_, ?_⟩
  · show (s.misses_ : Rat) / ((s.mem_accesses_ : Nat) : Rat) * 100 =
      (s.misses_ : Rat) / 0 * 100
    rw [h]
    norm_num
  · show (s.misses_ : Rat) / ((s.mem_accesses_ : Nat) : Rat) * 100 = 0
    rw [h]
    norm_num
  · rw [dump_stats_checked, if_pos (Or.inl h)]

/-- C9, witness: the fresh statistics have zero accesses, the code's report
computes a zero (NaN-standing) miss rate, and the guarded report is the
no-data signal. -/
theorem c9_amended_report_total_witness :
    Stats.init.mem_accesses_ = 0 ∧
    (dump_stats mainSim Stats.init).miss_rate = 0 ∧
    dump_stats_checked mainSim Stats.init = none :=
  ⟨rfl, (c9_amended_report_total mainSim Stats.init rfl).2.1,
    (c9_amended_report_total mainSim Stats.init rfl).2.2⟩

/-- Bitwise or of a number with zero low bits and a number that fits in those
low bits is their sum. -/
theorem or_eq_add_of_lt (x y k : Nat) (hx : x % 2 ^ k = 0) (hy : y < 2 ^ k) :
    x ||| y = x + y := by
  apply Nat.eq_of_testBit_eq
  intro i
  rcases Nat.lt_or_ge i k with hik | hik
  · have h0 : Nat.testBit (x % 2 ^ k) i = (decide (i < k) && x.testBit i) :=
      Nat.testBit_mod_two_pow x k i
    rw [hx] at h0
    rw [Nat.zero_testBit] at h0
    have hxb : x.testBit i = false := by
      rw [decide_eq_true hik, Bool.true_and] at h0
      exact h0.symm
    have hsum : (x + y) % 2 ^ k = y := by
      rw [Nat.add_mod, hx, Nat.mod_eq_of_lt hy, Nat.zero_add, Nat.mod_eq_of_lt hy]
    have h1 : (x + y).testBit i = y.testBit i := by
      have h2 := Nat.testBit_mod_two_pow (x + y) k i
      rw [hsum] at h2
      rw [decide_eq_true hik, Bool.true_and] at h2
      exact h2.symm
    rw [Nat.testBit_or, hxb, h1, Bool.false_or]
  · obtain ⟨j, rfl⟩ := Nat.exists_eq_add_of_le hik
    have hyb : y.testBit (k + j) = false :=
      Nat.testBit_lt_two_pow
        (lt_of_lt_of_le hy (Nat.pow_le_pow_right (by omega) (by omega)))
    obtain ⟨q, rfl⟩ := Nat.dvd_of_mod_eq_zero hx
    have hq : (2 ^ k * q + y) / 2 ^ k = 2 ^ k * q / 2 ^ k := by
      rw [Nat.mul_add_div (Nat.two_pow_pos k), Nat.div_eq_of_lt hy,
        Nat.mul_div_cancel_left q (Nat.two_pow_pos k), Nat.add_zero]
    have hx2 : (2 ^ k * q).testBit (k + j) = (2 ^ k * q / 2 ^ k).testBit j := by
      rw [← Nat.shiftRight_eq_div_pow, Nat.testBit_shiftRight]
    have hxy2 : (2 ^ k * q + y).testBit (k + j) =
        ((2 ^ k * q + y) / 2 ^ k).testBit j := by
      rw [← Nat.shiftRight_eq_div_pow, Nat.testBit_shiftRight]
    rw [Nat.testBit_or, hyb, Bool.or_false, hxy2, hq, ← hx2]

/-- C4: for every power-of-two geometry the decoder's outputs recompose the
address exactly: the tag shifted by `offset_bits + set_bits` (the stored
`tag_offset`), or-ed with the set index shifted by `offset_bits` (the stored
`set_offset`), or-ed with the block offset, equals the address. -/
theorem c4_decoder_recompose (bs a cap mp wbp b s address : Nat)
    (hbs : bs = 2 ^ b) (hsets : cap / (bs * a) = 2 ^ s)
    (_haddr : address < 2 ^ 64) :
    ((mkCacheSim bs a cap mp wbp).get_tag address <<<
        (mkCacheSim bs a cap mp wbp).tag_offset) |||
      ((mkCacheSim bs a cap mp wbp).get_set address <<<
        (mkCacheSim bs a cap mp wbp).set_offset) |||
      (address &&& (bs - 1)) = address := by
  have hb : 0 < 2 ^ b := Nat.two_pow_pos b
  have hs : 0 < 2 ^ s := Nat.two_pow_pos s
  have hbs2 : (2 : Nat) ^ (b + s) = 2 ^ b * 2 ^ s := pow_add 2 b s
  have hoff : (mkCacheSim bs a cap mp wbp).set_offset = b := by
    show popcount (bs - 1) = b
    rw [hbs, popcount_two_pow_sub_one]
  have htag : (mkCacheSim bs a cap mp wbp).tag_offset = b + s := by
    show popcount (bs - 1) + popcount (cap / (bs * a) - 1) = b + s
    rw [hsets, hbs, popcount_two_pow_sub_one, popcount_two_pow_sub_one]
  have hmask : (mkCacheSim bs a cap mp wbp).set_mask = 2 ^ s - 1 := by
    show cap / (bs * a) - 1 = 2 ^ s - 1
    rw [hsets]
  have hgtag : (mkCacheSim bs a cap mp wbp).get_tag address =
      address / 2 ^ (b + s) := by
    show address >>> (mkCacheSim bs a cap mp wbp).tag_offset = _
    rw [htag, Nat.shiftRight_eq_div_pow]
  have hgset : (mkCacheSim bs a cap mp wbp).get_set address =
      address / 2 ^ b % 2 ^ s := by
    show (address >>> (mkCacheSim bs a cap mp wbp).set_offset) &&&
      (mkCacheSim bs a cap mp wbp).set_mask = _
    rw [hoff, hmask, Nat.shiftRight_eq_div_pow, Nat.and_pow_two_sub_one_eq_mod]
  rw [hgtag, hgset, htag, hoff, hbs, Nat.and_pow_two_sub_one_eq_mod]
  rw [Nat.shiftLeft_eq, Nat.shiftLeft_eq]
  have hy1 : address / 2 ^ b % 2 ^ s * 2 ^ b < 2 ^ (b + s) := by
    calc address / 2 ^ b % 2 ^ s * 2 ^ b < 2 ^ s * 2 ^ b :=
        mul_lt_mul_of_pos_right (Nat.mod_lt (address / 2 ^ b) hs) hb
      _ = 2 ^ (b + s) := by rw [hbs2]; ring
  rw [or_eq_add_of_lt (address / 2 ^ (b + s) * 2 ^ (b + s))
    (address / 2 ^ b % 2 ^ s * 2 ^ b) (b + s) (Nat.mul_mod_left _ _) hy1]
  have hx2 : (address / 2 ^ (b + s) * 2 ^ (b + s) +
      address / 2 ^ b % 2 ^ s * 2 ^ b) % 2 ^ b = 0 := by
    have hsum : address / 2 ^ (b + s) * 2 ^ (b + s) +
        address / 2 ^ b % 2 ^ s * 2 ^ b =
        (address / 2 ^ (b + s) * 2 ^ s + address / 2 ^ b % 2 ^ s) * 2 ^ b := by
      rw [hbs2]; ring
    rw [hsum, Nat.mul_mod_left]
  rw [or_eq_add_of_lt (address / 2 ^ (b + s) * 2 ^ (b + s) +
    address / 2 ^ b % 2 ^ s * 2 ^ b) (address % 2 ^ b) b hx2
    (Nat.mod_lt address hb)]
  have h2 : 2 ^ s * (address / 2 ^ b / 2 ^ s) + address / 2 ^ b % 2 ^ s =
      address / 2 ^ b := Nat.div_add_mod (address / 2 ^ b) (2 ^ s)
  have h3 : address / 2 ^ b / 2 ^ s = address / 2 ^ (b + s) := by
    rw [Nat.div_div_eq_div_mul, ← hbs2]
  rw [h3] at h2
  calc address / 2 ^ (b + s) * 2 ^ (b + s) + address / 2 ^ b % 2 ^ s * 2 ^ b +
        address % 2 ^ b
      = 2 ^ b * (2 ^ s * (address / 2 ^ (b + s)) + address / 2 ^ b % 2 ^ s) +
        address % 2 ^ b := by rw [hbs2]; ring
    _ = 2 ^ b * (address / 2 ^ b) + address % 2 ^ b := by rw [h2]
    _ = address := Nat.div_add_mod address (2 ^ b)

/-- C4, witness: the hard-coded geometry recomposes the address
`0xDEADBEEF`. -/
theorem c4_decoder_recompose_witness :
    16 = 2 ^ 4 ∧ 16384 / (16 * 1) = 2 ^ 10 ∧ 0xDEADBEEF < 2 ^ 64 ∧
    ((mkCacheSim 16 1 16384 30 2).get_tag 0xDEADBEEF <<<
        (mkCacheSim 16 1 16384 30 2).tag_offset) |||
      ((mkCacheSim 16 1 16384 30 2).get_set 0xDEADBEEF <<<
        (mkCacheSim 16 1 16384 30 2).set_offset) |||
      (0xDEADBEEF &&& (16 - 1)) = 0xDEADBEEF :=
  ⟨by decide, by decide, by decide,
    c4_decoder_recompose 16 1 16384 30 2 4 10 0xDEADBEEF
      (by decide) (by decide) (by decide)⟩

/-- A probe sequence never changes the configuration fields. -/
theorem probeSeq_config (c0 : CacheSim) (kind : Nat → Bool) (ad : Nat → Nat) :
    ∀ n, (probeSeq c0 kind ad n).associativity = c0.associativity ∧
      (probeSeq c0 kind ad n).set_offset = c0.set_offset ∧
      (probeSeq c0 kind ad n).tag_offset = c0.tag_offset ∧
      (probeSeq c0 kind ad n).set_mask = c0.set_mask := by
  intro n
  induction n with
  | zero => exact ⟨rfl, rfl, rfl, rfl⟩
  | succ n ih => exact ⟨ih.1, ih.2.1, ih.2.2.1, ih.2.2.2⟩

/-- A probe sequence never changes the set decoding. -/
theorem probeSeq_get_set (c0 : CacheSim) (kind : Nat → Bool) (ad : Nat → Nat)
    (n x : Nat) : (probeSeq c0 kind ad n).get_set x = c0.get_set x := by
  show (x >>> (probeSeq c0 kind ad n).set_offset) &&&
    (probeSeq c0 kind ad n).set_mask = _
  rw [(probeSeq_config c0 kind ad n).2.1, (probeSeq_config c0 kind ad n).2.2.2]
  rfl

/-- A probe sequence never changes the tag decoding. -/
theorem probeSeq_get_tag (c0 : CacheSim) (kind : Nat → Bool) (ad : Nat → Nat)
    (n x : Nat) : (probeSeq c0 kind ad n).get_tag x = c0.get_tag x := by
  show x >>> (probeSeq c0 kind ad n).tag_offset = _
  rw [(probeSeq_config c0 kind ad n).2.2.1]
  rfl

/-- On the eviction path (no hit, no invalid lane) the valid bits do not
change at all. -/
theorem probe_valid_eviction (c : CacheSim) (type : Bool) (address : Nat)
    (h : c.scanRes address = (none, none)) :
    ∀ j, (c.probe type address).1.valid j = c.valid j := by
  intro j
  show (match c.scanRes address with
    | (none, some _) =>
      if j = c.get_set address * c.associativity + c.touchedIdx address then
        true
      else c.valid j
    | _ => c.valid j) = c.valid j
  rw [h]

/-- State of the addressed set after `k` cold misses with pairwise distinct
tags, starting from an all-invalid cache: lanes `0 .. A-k-1` are still
invalid with priority `k`; lane `A-k+j` (for `j < k`) is valid with priority
`j` and holds the tag of access `k-1-j` — installs fill the set from the
last lane backwards, because the scan records the *last* invalid index. -/
theorem probeSeq_state (c0 : CacheSim) (kind : Nat → Bool) (ad : Nat → Nat)
    (hvalid0 : ∀ j, c0.valid j = false) (hprio0 : ∀ j, c0.priority j = 0)
    (hset : ∀ i, i ≤ c0.associativity → c0.get_set (ad i) = c0.get_set (ad 0))
    (hdist : ∀ i j, i ≤ c0.associativity → j ≤ c0.associativity → i ≠ j →
      c0.get_tag (ad i) ≠ c0.get_tag (ad j)) :
    ∀ k, k ≤ c0.associativity →
      (∀ i, i < c0.associativity - k →
        (probeSeq c0 kind ad k).valid
          (c0.get_set (ad 0) * c0.associativity + i) = false ∧
        (probeSeq c0 kind ad k).priority
          (c0.get_set (ad 0) * c0.associativity + i) = k) ∧
      (∀ j, j < k →
        (probeSeq c0 kind ad k).valid
          (c0.get_set (ad 0) * c0.associativity +
            (c0.associativity - k + j)) = true ∧
        (probeSeq c0 kind ad k).tags
          (c0.get_set (ad 0) * c0.associativity +
            (c0.associativity - k + j)) = c0.get_tag (ad (k - 1 - j)) ∧
        (probeSeq c0 kind ad k).priority
          (c0.get_set (ad 0) * c0.associativity +
            (c0.associativity - k + j)) = j) := by
  intro k
  induction k with
  | zero =>
    intro _
    exact ⟨fun i _ => ⟨hvalid0 _, hprio0 _⟩, fun j hj => absurd hj (by omega)⟩
  | succ k ih =>
    intro hk1
    obtain ⟨ih1, ih2⟩ := ih (by omega)
    have hXa : (probeSeq c0 kind ad k).associativity = c0.associativity :=
      (probeSeq_config c0 kind ad k).1
    have hXset : (probeSeq c0 kind ad k).get_set (ad k) = c0.get_set (ad 0) := by
      rw [probeSeq_get_set]
      exact hset k (by omega)
    have hXtag : ∀ m, (probeSeq c0 kind ad k).get_tag (ad m) =
        c0.get_tag (ad m) := fun m => probeSeq_get_tag c0 kind ad k (ad m)
    have hbase : (probeSeq c0 kind ad k).get_set (ad k) *
        (probeSeq c0 kind ad k).associativity =
        c0.get_set (ad 0) * c0.associativity := by
      rw [hXset, hXa]
    have hscan : (probeSeq c0 kind ad k).scanRes (ad k) =
        (none, some (c0.associativity - k - 1)) := by
      show scanLoop ((probeSeq c0 kind ad k).get_tag (ad k))
        ((probeSeq c0 kind ad k).get_set (ad k) *
          (probeSeq c0 kind ad k).associativity)
        (probeSeq c0 kind ad k).valid (probeSeq c0 kind ad k).tags
        0 (probeSeq c0 kind ad k).associativity none = _
      rw [hXtag k, hbase, hXa]
      exact scanLoop_prefix_invalid _ _ _ _ c0.associativity 0 none
        (c0.associativity - k) (by omega) (by omega)
        (fun m hm1 hm2 => (ih1 m (by omega)).1)
        (fun m hm1 hm2 => by
          have e : c0.associativity - k + (m - (c0.associativity - k)) = m := by
            omega
          have h2 := ih2 (m - (c0.associativity - k)) (by omega)
          rw [e] at h2
          refine ⟨h2.1, ?_⟩
          rw [h2.2.1]
          exact hdist (k - 1 - (m - (c0.associativity - k))) k (by omega)
            (by omega) (by omega))
    have htouch : (probeSeq c0 kind ad k).touchedIdx (ad k) =
        c0.associativity - k - 1 :=
      touchedIdx_invalid _ _ _ hscan
    have hp0 : (probeSeq c0 kind ad k).priority
        (c0.get_set (ad 0) * c0.associativity +
          (c0.associativity - k - 1)) = k :=
      (ih1 (c0.associativity - k - 1) (by omega)).2
    have hprio2 : (probeSeq c0 kind ad (k + 1)).priority =
        prioFinal c0.associativity (c0.get_set (ad 0) * c0.associativity)
          (c0.associativity - k - 1) (probeSeq c0 kind ad k).priority := by
      show ((probeSeq c0 kind ad k).probe (kind k) (ad k)).1.priority = _
      rw [probe_priority, hbase, hXa, htouch]
    have hspec := prioFinal_spec c0.associativity
      (c0.get_set (ad 0) * c0.associativity) (c0.associativity - k - 1)
      (probeSeq c0 kind ad k).priority (by omega)
    have hvt : (probeSeq c0 kind ad (k + 1)).valid
        (c0.get_set (ad 0) * c0.associativity +
          (c0.associativity - k - 1)) = true := by
      have h := probe_valid_touched (probeSeq c0 kind ad k) (kind k) (ad k)
        (c0.associativity - k - 1) hscan
      rw [hbase, htouch] at h
      exact h
    have htt : (probeSeq c0 kind ad (k + 1)).tags
        (c0.get_set (ad 0) * c0.associativity +
          (c0.associativity - k - 1)) = c0.get_tag (ad k) := by
      have h := probe_tags_touched (probeSeq c0 kind ad k) (kind k) (ad k)
        (by rw [hscan])
      rw [hbase, htouch, hXtag k] at h
      exact h
    have hvf : ∀ j2, j2 ≠ c0.get_set (ad 0) * c0.associativity +
        (c0.associativity - k - 1) →
        (probeSeq c0 kind ad (k + 1)).valid j2 =
          (probeSeq c0 kind ad k).valid j2 := by
      intro j2 hj2
      exact probe_valid_frame (probeSeq c0 kind ad k) (kind k) (ad k) j2
        (by rw [hbase, htouch]; exact hj2)
    have htf : ∀ j2, j2 ≠ c0.get_set (ad 0) * c0.associativity +
        (c0.associativity - k - 1) →
        (probeSeq c0 kind ad (k + 1)).tags j2 =
          (probeSeq c0 kind ad k).tags j2 := by
      intro j2 hj2
      exact probe_tags_frame (probeSeq c0 kind ad k) (kind k) (ad k) j2
        (by rw [hbase, htouch]; exact hj2)
    refine ⟨fun i hi => ⟨?_, ?_⟩, fun j hj => ?_⟩
    · rw [hvf _ (by omega)]
      exact (ih1 i (by omega)).1
    · rw [hprio2, hspec.2.1 i (by omega), (ih1 i (by omega)).2, hp0]
      rw [if_pos ⟨Nat.le_refl k, by omega⟩]
    · cases j with
      | zero =>
        rw [show c0.associativity - (k + 1) + 0 = c0.associativity - k - 1
          by omega]
        refine ⟨hvt, ?_, ?_⟩
        · rw [htt, show k + 1 - 1 - 0 = k by omega]
        · rw [hprio2, hspec.1]
      | succ j2 =>
        have hj2k : j2 < k := by omega
        rw [show c0.associativity - (k + 1) + (j2 + 1) =
          c0.associativity - k + j2 by omega]
        refine ⟨?_, ?_, ?_⟩
        · rw [hvf _ (by omega)]
          exact (ih2 j2 hj2k).1
        · rw [htf _ (by omega), (ih2 j2 hj2k).2.1,
            show k + 1 - 1 - (j2 + 1) = k - 1 - j2 by omega]
        · rw [hprio2,
            hspec.2.2.1 (c0.associativity - k + j2) (by omega) (by omega),
            (ih2 j2 hj2k).2.2, hp0]
          rw [if_pos (show k < c0.associativity by omega)]
          rw [if_pos (show j2 ≤ k + 1 ∧ j2 < c0.associativity by omega)]

/-- C5: for every configuration with associativity `a` and every `a + 1`
addresses with pairwise distinct tags mapping to one set, probed once each in
order from a fresh cache, the last probe evicts exactly the first address's
line: afterwards the tags of accesses `1 .. a` are all resident in the set
and the tag of access `0` is not. -/
theorem c5_lru_eviction (bs a cap mp wbp : Nat) (kind : Nat → Bool)
    (ad : Nat → Nat) (ha : 0 < a)
    (hset : ∀ i, i ≤ a → (mkCacheSim bs a cap mp wbp).get_set (ad i) =
      (mkCacheSim bs a cap mp wbp).get_set (ad 0))
    (hdist : ∀ i, i ≤ a → ∀ j, j ≤ a → i ≠ j →
      (mkCacheSim bs a cap mp wbp).get_tag (ad i) ≠
      (mkCacheSim bs a cap mp wbp).get_tag (ad j)) :
    (∀ j, 1 ≤ j → j ≤ a → ∃ l, l < a ∧
      (probeSeq (mkCacheSim bs a cap mp wbp) kind ad (a + 1)).valid
        ((mkCacheSim bs a cap mp wbp).get_set (ad 0) * a + l) = true ∧
      (probeSeq (mkCacheSim bs a cap mp wbp) kind ad (a + 1)).tags
        ((mkCacheSim bs a cap mp wbp).get_set (ad 0) * a + l) =
        (mkCacheSim bs a cap mp wbp).get_tag (ad j)) ∧
    (∀ l, l < a →
      (probeSeq (mkCacheSim bs a cap mp wbp) kind ad (a + 1)).tags
        ((mkCacheSim bs a cap mp wbp).get_set (ad 0) * a + l) ≠
        (mkCacheSim bs a cap mp wbp).get_tag (ad 0)) := by
  have hA : (mkCacheSim bs a cap mp wbp).associativity = a := rfl
  have ihs := probeSeq_state (mkCacheSim bs a cap mp wbp) kind ad
    (fun _ => rfl) (fun _ => rfl) hset
    (fun i j hi hj hne => hdist i hi j hj hne) a (Nat.le_refl a)
  have hstate : ∀ j, j < a →
      (probeSeq (mkCacheSim bs a cap mp wbp) kind ad a).valid
        ((mkCacheSim bs a cap mp wbp).get_set (ad 0) * a + j) = true ∧
      (probeSeq (mkCacheSim bs a cap mp wbp) kind ad a).tags
        ((mkCacheSim bs a cap mp wbp).get_set (ad 0) * a + j) =
        (mkCacheSim bs a cap mp wbp).get_tag (ad (a - 1 - j)) ∧
      (probeSeq (mkCacheSim bs a cap mp wbp) kind ad a).priority
        ((mkCacheSim bs a cap mp wbp).get_set (ad 0) * a + j) = j := by
    intro j hj
    have h := ihs.2 j hj
    rw [hA] at h
    rwa [show a - a + j = j by omega] at h
  have hXa2 : (probeSeq (mkCacheSim bs a cap mp wbp) kind ad a).associativity =
      a := (probeSeq_config (mkCacheSim bs a cap mp wbp) kind ad a).1
  have hXset : (probeSeq (mkCacheSim bs a cap mp wbp) kind ad a).get_set (ad a) =
      (mkCacheSim bs a cap mp wbp).get_set (ad 0) := by
    rw [probeSeq_get_set]
    exact hset a (Nat.le_refl a)
  have hbase : (probeSeq (mkCacheSim bs a cap mp wbp) kind ad a).get_set (ad a) *
      (probeSeq (mkCacheSim bs a cap mp wbp) kind ad a).associativity =
      (mkCacheSim bs a cap mp wbp).get_set (ad 0) * a := by
    rw [hXset, hXa2]
  have hscan : (probeSeq (mkCacheSim bs a cap mp wbp) kind ad a).scanRes (ad a) =
      (none, none) := by
    show scanLoop
      ((probeSeq (mkCacheSim bs a cap mp wbp) kind ad a).get_tag (ad a))
      ((probeSeq (mkCacheSim bs a cap mp wbp) kind ad a).get_set (ad a) *
        (probeSeq (mkCacheSim bs a cap mp wbp) kind ad a).associativity)
      (probeSeq (mkCacheSim bs a cap mp wbp) kind ad a).valid
      (probeSeq (mkCacheSim bs a cap mp wbp) kind ad a).tags
      0 (probeSeq (mkCacheSim bs a cap mp wbp) kind ad a).associativity
      none = _
    rw [probeSeq_get_tag, hbase, hXa2]
    exact scanLoop_all_valid _ _ _ _ a 0 none
      (fun m hm1 hm2 => by
        have h := hstate m (by omega)
        refine ⟨h.1, ?_⟩
        rw [h.2.1]
        exact hdist (a - 1 - m) (by omega) a (by omega) (by omega))
  have hme : maxElemIdx a ((mkCacheSim bs a cap mp wbp).get_set (ad 0) * a)
      (probeSeq (mkCacheSim bs a cap mp wbp) kind ad a).priority = a - 1 := by
    obtain ⟨m1, m2, m3⟩ := maxElemIdx_spec a
      ((mkCacheSim bs a cap mp wbp).get_set (ad 0) * a)
      (probeSeq (mkCacheSim bs a cap mp wbp) kind ad a).priority ha
    have h1 := m2 (a - 1) (by omega)
    rw [(hstate (a - 1) (by omega)).2.2, (hstate _ m1).2.2] at h1
    omega
  have htouch3 : (probeSeq (mkCacheSim bs a cap mp wbp) kind ad a).touchedIdx
      (ad a) = a - 1 := by
    rw [touchedIdx_eviction _ _ hscan, hbase, hXa2, hme]
  have htagsT : (probeSeq (mkCacheSim bs a cap mp wbp) kind ad (a + 1)).tags
      ((mkCacheSim bs a cap mp wbp).get_set (ad 0) * a + (a - 1)) =
      (mkCacheSim bs a cap mp wbp).get_tag (ad a) := by
    have h := probe_tags_touched (probeSeq (mkCacheSim bs a cap mp wbp) kind ad a)
      (kind a) (ad a) (by rw [hscan])
    rw [hbase, htouch3, probeSeq_get_tag] at h
    exact h
  have htagsF : ∀ l, l < a - 1 →
      (probeSeq (mkCacheSim bs a cap mp wbp) kind ad (a + 1)).tags
        ((mkCacheSim bs a cap mp wbp).get_set (ad 0) * a + l) =
        (mkCacheSim bs a cap mp wbp).get_tag (ad (a - 1 - l)) := by
    intro l hl
    have h := probe_tags_frame (probeSeq (mkCacheSim bs a cap mp wbp) kind ad a)
      (kind a) (ad a) ((mkCacheSim bs a cap mp wbp).get_set (ad 0) * a + l)
      (by rw [hbase, htouch3]; omega)
    exact h.trans (hstate l (by omega)).2.1
  have hvalid2 : ∀ l, l < a →
      (probeSeq (mkCacheSim bs a cap mp wbp) kind ad (a + 1)).valid
        ((mkCacheSim bs a cap mp wbp).get_set (ad 0) * a + l) = true := by
    intro l hl
    have h := probe_valid_eviction
      (probeSeq (mkCacheSim bs a cap mp wbp) kind ad a) (kind a) (ad a) hscan
      ((mkCacheSim bs a cap mp wbp).get_set (ad 0) * a + l)
    exact h.trans (hstate l hl).1
  refine ⟨fun j hj1 hj2 => ?_, fun l hl => ?_⟩
  · rcases Nat.eq_or_lt_of_le hj2 with he | hlt
    · exact ⟨a - 1, by omega, hvalid2 (a - 1) (by omega), by rw [htagsT, he]⟩
    · refine ⟨a - 1 - j, by omega, hvalid2 (a - 1 - j) (by omega), ?_⟩
      rw [htagsF (a - 1 - j) (by omega)]
      rw [show a - 1 - (a - 1 - j) = j by omega]
  · rcases Nat.lt_or_ge l (a - 1) with hl2 | hl2
    · rw [htagsF l hl2]
      exact hdist (a - 1 - l) (by omega) 0 (by omega) (by omega)
    · rw [show l = a - 1 by omega, htagsT]
      exact hdist a (by omega) 0 (by omega) (by omega)

/-- C5, witness: on the two-way configuration, reading `0x0, 0x2000, 0x4000`
(three distinct tags, all set 0) leaves tags 1 and 2 resident and evicts
tag 0. -/
theorem c5_lru_eviction_witness :
    (0 : Nat) < 2 ∧
    ((∀ j, 1 ≤ j → j ≤ 2 → ∃ l, l < 2 ∧
      (probeSeq (mkCacheSim 16 2 16384 30 2) allReads threeAddrs (2 + 1)).valid
        ((mkCacheSim 16 2 16384 30 2).get_set (threeAddrs 0) * 2 + l) = true ∧
      (probeSeq (mkCacheSim 16 2 16384 30 2) allReads threeAddrs (2 + 1)).tags
        ((mkCacheSim 16 2 16384 30 2).get_set (threeAddrs 0) * 2 + l) =
        (mkCacheSim 16 2 16384 30 2).get_tag (threeAddrs j)) ∧
    (∀ l, l < 2 →
      (probeSeq (mkCacheSim 16 2 16384 30 2) allReads threeAddrs (2 + 1)).tags
        ((mkCacheSim 16 2 16384 30 2).get_set (threeAddrs 0) * 2 + l) ≠
        (mkCacheSim 16 2 16384 30 2).get_tag (threeAddrs 0))) :=
  ⟨by decide,
    c5_lru_eviction 16 2 16384 30 2 allReads threeAddrs (by decide)
      (by decide) (by decide)⟩
